import Mathlib

/-!
Shallow embedding of the `gas-spreadsheet-softer-activerecord` library
(`src/index.ts`): the classes `ActiveTable`, `ActiveTableRowArray` and
`ActiveTableRow`, over a spreadsheet modelled as a named header row of
column names plus a list of data rows of JS-like scalar cell values.
Backing-store effects (`appendRow`, `deleteRow`, `setValues`) are
recorded as an explicit list of `StoreOp` operations in issue order.
-/

/-- A JS scalar value as stored in a sheet cell or a row field.
`vDate objId time` models a JS `Date` object: `objId` is the object
identity (reference) and `time` its `getTime()` instant. -/
inductive Value where
  | vUndefined : Value
  | vNull : Value
  | vBool : Bool → Value
  | vNum : Int → Value
  | vStr : String → Value
  | vDate : Nat → Int → Value
deriving DecidableEq

/-- JS strict equality `===`: by value on primitives, by object identity
on `Date` objects. -/
def jsStrictEq : Value → Value → Bool
  | .vUndefined, .vUndefined => true
  | .vNull, .vNull => true
  | .vBool a, .vBool b => decide (a = b)
  | .vNum a, .vNum b => decide (a = b)
  | .vStr a, .vStr b => decide (a = b)
  | .vDate i _, .vDate j _ => decide (i = j)
  | _, _ => false

/-- JS code-unit comparison of two strings (the case of `a < b` where
both operands are strings), on the underlying character lists. -/
def chListLt : List Char → List Char → Bool
  | [], [] => false
  | [], _ :: _ => true
  | _ :: _, [] => false
  | a :: as, b :: bs => if a < b then true else if b < a then false else chListLt as bs

/-- JS whitespace, for the string-trimming step of `ToNumber`. -/
def isJsSpace (c : Char) : Bool :=
  c = ' ' || c = '\t' || c = '\n' || c = '\r'

/-- Trim leading and trailing whitespace off a character list. -/
def trimChars (l : List Char) : List Char :=
  ((l.dropWhile isJsSpace).reverse.dropWhile isJsSpace).reverse

/-- Read a nonempty digit string as a natural number; `none` on any
non-digit character. -/
def digitsToNatAux : List Char → Nat → Option Nat
  | [], acc => some acc
  | c :: cs, acc =>
    if c.isDigit then digitsToNatAux cs (10 * acc + (c.toNat - 48)) else none

/-- Digit-string reading, rejecting the empty string. -/
def digitsToNat : List Char → Option Nat
  | [] => none
  | c :: cs => digitsToNatAux (c :: cs) 0

/-- Integer reading of a trimmed nonempty character list, with optional
sign. -/
def chListToInt : List Char → Option Int
  | '-' :: rest => (digitsToNat rest).map fun n => -(n : Int)
  | '+' :: rest => (digitsToNat rest).map fun n => (n : Int)
  | l => (digitsToNat l).map fun n => (n : Int)

/-- JS `ToNumber` on the values of the model, `none` standing for `NaN`:
`null` maps to 0, booleans to 0/1, a `Date` to its time value, a string
to 0 when blank and otherwise to its integer reading (non-numeric
strings are `NaN`; fractional literals are out of the model's value
range). -/
def toNumber : Value → Option Int
  | .vUndefined => none
  | .vNull => some 0
  | .vBool b => some (if b then 1 else 0)
  | .vNum n => some n
  | .vStr s =>
    match trimChars s.data with
    | [] => some 0
    | c :: cs => chListToInt (c :: cs)
  | .vDate _ t => some t

/-- JS abstract relational comparison `a < b`: lexical when both sides
are strings, otherwise numeric after `ToNumber` (false when either side
is `NaN`). -/
def jsLt (a b : Value) : Bool :=
  match a, b with
  | .vStr x, .vStr y => chListLt x.data y.data
  | _, _ =>
    match toNumber a, toNumber b with
    | some x, some y => decide (x < y)
    | _, _ => false

/-- JS `a > b`, evaluated as the relational comparison `b < a`. -/
def jsGt (a b : Value) : Bool := jsLt b a

/-- The nullish-coalescing default `v ?? ''` used by `create` and
`#updateRow` when reading a field. -/
def orEmptyStr : Value → Value
  | .vUndefined => .vStr ""
  | .vNull => .vStr ""
  | v => v

/-- One backing-store operation, recorded in the order the sheet
receives it. -/
inductive StoreOp where
  | append : List Value → StoreOp
  | deleteRow : Nat → StoreOp
  | updateRow : Nat → List Value → StoreOp
deriving DecidableEq

/-- An `ActiveTableRow`: a dynamic field bag plus the nullable 1-based
row position handle (`#rowNumber`).  An absent field reads as
`undefined`. -/
structure Row where
  rowNumber : Option Nat
  fields : String → Value

/-- JS property assignment `row[k] = v` on a field bag. -/
def assignField (f : String → Value) (k : String) (v : Value) : String → Value :=
  fun k' => if k' = k then v else f k'

/-- `attributes.map(attr => row[attr.name] ?? '')`: the full-row value
list built by `create` (hence by `save` on a transient row) and by
`#updateRow`. -/
def rowValues (attrs : List String) (f : String → Value) : List Value :=
  attrs.map fun a => orEmptyStr (f a)

/-- JS object lookup `obj[k]` on an object literal given as a key/value
list; `undefined` when the key is absent. -/
def objLookup (obj : List (String × Value)) (k : String) : Value :=
  match obj.find? (fun p => p.1 == k) with
  | some p => p.2
  | none => .vUndefined

/-- `ActiveTableRow.isPersisted`. -/
def Row.isPersisted (r : Row) : Bool := r.rowNumber.isSome

/-- `ActiveTableRow.save`: when transient, delegates to the owning
table's `create` (an append); when persisted, a full-row update at the
current position.  `attrs` are the owning table's column names. -/
def Row.save (attrs : List String) (r : Row) : List StoreOp :=
  match r.rowNumber with
  | none => [.append (rowValues attrs r.fields)]
  | some n => [.updateRow n (rowValues attrs r.fields)]

/-- `ActiveTableRow.delete`: a backing-store `deleteRow` at the current
position when persisted, and in every case the handle is cleared. -/
def Row.delete (r : Row) : Row × List StoreOp :=
  ({ r with rowNumber := none },
   match r.rowNumber with
   | some n => [.deleteRow n]
   | none => [])

/-- `ActiveTableRow.update`: merge `obj` into the field bag, then a
full-row update at the current position when persisted. -/
def Row.update (attrs : List String) (obj : List (String × Value)) (r : Row) :
    Row × List StoreOp :=
  let merged : Row := { r with fields := obj.foldl (fun f p => assignField f p.1 p.2) r.fields }
  (merged,
   match r.rowNumber with
   | some n => [.updateRow n (rowValues attrs merged.fields)]
   | none => [])

/-- The per-criterion test of `ActiveTableRowArray.where`: two `Date`
values compare by `getTime()`, every other pair by `===`. -/
def ActiveTableRowArray.whereTest (value rowValue : Value) : Bool :=
  match value, rowValue with
  | .vDate _ t, .vDate _ u => decide (t = u)
  | _, _ => jsStrictEq rowValue value

/-- The row predicate of `ActiveTableRowArray.where`. -/
def ActiveTableRowArray.whereMatch (criteria : List (String × Value)) (r : Row) : Bool :=
  criteria.all fun p => ActiveTableRowArray.whereTest p.2 (r.fields p.1)

/-- `ActiveTableRowArray.where`. -/
def ActiveTableRowArray.whereFilter (criteria : List (String × Value)) (rows : List Row) :
    List Row :=
  rows.filter (ActiveTableRowArray.whereMatch criteria)

/-- The row predicate of `ActiveTableRowArray.after`:
`row[key] > value` for every criterion. -/
def ActiveTableRowArray.afterMatch (criteria : List (String × Value)) (r : Row) : Bool :=
  criteria.all fun p => jsGt (r.fields p.1) p.2

/-- `ActiveTableRowArray.after`. -/
def ActiveTableRowArray.after (criteria : List (String × Value)) (rows : List Row) : List Row :=
  rows.filter (ActiveTableRowArray.afterMatch criteria)

/-- The row predicate of `ActiveTableRowArray.before`:
`rowValue !== null && rowValue !== '' && rowValue < value` for every
criterion. -/
def ActiveTableRowArray.beforeMatch (criteria : List (String × Value)) (r : Row) : Bool :=
  criteria.all fun p =>
    !jsStrictEq (r.fields p.1) .vNull &&
      (!jsStrictEq (r.fields p.1) (.vStr "") && jsLt (r.fields p.1) p.2)

/-- `ActiveTableRowArray.before`. -/
def ActiveTableRowArray.before (criteria : List (String × Value)) (rows : List Row) : List Row :=
  rows.filter (ActiveTableRowArray.beforeMatch criteria)

/-- The traversal of `deleteAll` over the in-place-reversed array: each
visited row is deleted (its handle cleared; a trace op emitted when it
was persisted). -/
def ActiveTableRowArray.deleteAllVisit : List Row → List Row × List StoreOp
  | [] => ([], [])
  | r :: rs =>
    let d := Row.delete r
    let rest := ActiveTableRowArray.deleteAllVisit rs
    (d.1 :: rest.1, d.2 ++ rest.2)

/-- `ActiveTableRowArray.deleteAll`:
`this.reverse().forEach(row => row.delete())`.  First component: the
receiver array as the call leaves it (reversed in place, each member's
handle cleared by its own `delete`); second component: the
backing-store trace in issue order. -/
def ActiveTableRowArray.deleteAll (rows : List Row) : List Row × List StoreOp :=
  ActiveTableRowArray.deleteAllVisit rows.reverse

/-- The backing sheet: its name, its header row of column names, and its
data rows. -/
structure Sheet where
  name : String
  header : List String
  rows : List (List Value)

/-- The error message of the construction-time uniqueness check. -/
def dupMsg (sheetName : String) : String :=
  "Duplicate values found in the first column of sheet \"" ++ sheetName ++ "\""

/-- The error message of `find` on more than one match. -/
def multiMsg (id : String) : String :=
  "Multiple rows with id \"" ++ id ++ "\" found"

/-- The error message of `find` on zero matches. -/
def nfMsg (id : String) : String :=
  "Row with id \"" ++ id ++ "\" not found"

/-- One insertion into the model of the JS `Set` built by the
construction-time uniqueness check (SameValueZero membership). -/
def insertUniq (acc : List Value) (v : Value) : List Value :=
  if acc.any (fun w => jsStrictEq w v) then acc else acc ++ [v]

/-- `new Set(vs).size`. -/
def setSize (vs : List Value) : Nat :=
  (vs.foldl insertUniq []).length

/-- First-column values of the data rows (`row[0]`, `undefined` on an
empty row). -/
def firstColumn (sheet : Sheet) : List Value :=
  sheet.rows.map fun r => r.headD .vUndefined

/-- The `ActiveTable` private constructor: derives the attribute list
from the header row and, when `checkUnique` is set, fails when the
first-column values of the data rows are not pairwise distinct.  The
result is the attribute name list — the only construction-time state
besides the sheet itself. -/
def ActiveTable.construct (sheet : Sheet) (checkUnique : Bool) : Except String (List String) :=
  if checkUnique ∧ setSize (firstColumn sheet) ≠ sheet.rows.length then
    .error (dupMsg sheet.name)
  else
    .ok sheet.header

/-- The attribute-assignment loop of `ActiveTable.#rows`:
`attributes.forEach(attr => lazyRow[attr.name] = row[attr.column - 1])`,
`attr.column - 1` being the attribute's 0-based index `i`; a cell read
out of range yields `undefined`. -/
def assignAttrsFrom : List String → Nat → List Value → (String → Value) → (String → Value)
  | [], _, _, f => f
  | a :: as, i, cells, f =>
    assignAttrsFrom as (i + 1) cells (assignField f a (cells.getD i .vUndefined))

/-- Materialize one data row at sheet position `pos`. -/
def materializeRow (attrs : List String) (pos : Nat) (cells : List Value) : Row :=
  { rowNumber := some pos,
    fields := assignAttrsFrom attrs 0 cells (fun _ => .vUndefined) }

/-- Materialize data rows starting at sheet position `pos` (the first
data row sits at position 2, just below the header). -/
def materializeRows (attrs : List String) (pos : Nat) : List (List Value) → List Row
  | [] => []
  | cells :: rest => materializeRow attrs pos cells :: materializeRows attrs (pos + 1) rest

/-- `ActiveTable.all` / `ActiveTable.#rows`: re-read the sheet and wrap
every data row. -/
def ActiveTable.all (sheet : Sheet) : List Row :=
  materializeRows sheet.header 2 sheet.rows

/-- The filtered row list inside `ActiveTable.find`:
`row[this.attributes[0].name] === id`.  (On an empty header the source
crashes reading `attributes[0].name`; the model is only used with a
nonempty header.) -/
def ActiveTable.findMatches (sheet : Sheet) (id : String) : List Row :=
  (ActiveTable.all sheet).filter fun r =>
    jsStrictEq (r.fields (sheet.header.headD "")) (.vStr id)

/-- `ActiveTable.find`. -/
def ActiveTable.find (sheet : Sheet) (id : String) : Except String Row :=
  let rows := ActiveTable.findMatches sheet id
  if 1 < rows.length then .error (multiMsg id)
  else
    match rows with
    | [] => .error (nfMsg id)
    | r :: _ => .ok r

/-- `ActiveTable.create`: `attributes.map(attr => obj[attr.name] ?? '')`
appended to the sheet as one new row. -/
def ActiveTable.create (attrs : List String) (obj : List (String × Value)) : List StoreOp :=
  [.append (attrs.map fun a => orEmptyStr (objLookup obj a))]

/-- Apply one operation to a raw store grid (header row included,
positions 1-based): `deleteRow` removes the addressed row and shifts the
rows below it up by one. -/
def applyOp (store : List (List Value)) : StoreOp → List (List Value)
  | .append vs => store ++ [vs]
  | .deleteRow n => store.take (n - 1) ++ store.drop n
  | .updateRow n vs => store.set (n - 1) vs

/-- Apply a trace of operations to a raw store grid, left to right. -/
def applyOps (store : List (List Value)) (ops : List StoreOp) : List (List Value) :=
  ops.foldl applyOp store

/-- A persisted row at position 2 with no fields set. -/
def sampleRow : Row := { rowNumber := some 2, fields := fun _ => .vUndefined }

/-- A persisted row whose `age` field is `null`. -/
def nullAgeRow : Row :=
  { rowNumber := some 2, fields := assignField (fun _ => .vUndefined) "age" .vNull }

/-- A sheet whose two data rows share a first-column value. -/
def dupSheet : Sheet :=
  { name := "Users", header := ["id"], rows := [[.vStr "a"], [.vStr "a"]] }

/-- A sheet with two data rows with distinct first-column values. -/
def okSheet : Sheet :=
  { name := "Users", header := ["id"], rows := [[.vStr "a"], [.vStr "b"]] }

/-- A persisted row at position 3 with no fields set. -/
def rowAtThree : Row := { rowNumber := some 3, fields := fun _ => .vUndefined }

/-- A two-column sheet with a single data row. -/
def twoColSheet : Sheet :=
  { name := "Users", header := ["id", "name"], rows := [[.vStr "x", .vStr "y"]] }

/-- Membership characterization of `where`. -/
theorem mem_whereFilter (criteria : List (String × Value)) (rows : List Row) (r : Row) :
    r ∈ ActiveTableRowArray.whereFilter criteria rows ↔
      r ∈ rows ∧ ∀ p ∈ criteria, ActiveTableRowArray.whereTest p.2 (r.fields p.1) = true := by
  simp [ActiveTableRowArray.whereFilter, List.mem_filter,
    ActiveTableRowArray.whereMatch, List.all_eq_true]

/-- Membership characterization of `after`. -/
theorem mem_after (criteria : List (String × Value)) (rows : List Row) (r : Row) :
    r ∈ ActiveTableRowArray.after criteria rows ↔
      r ∈ rows ∧ ∀ p ∈ criteria, jsGt (r.fields p.1) p.2 = true := by
  simp [ActiveTableRowArray.after, List.mem_filter,
    ActiveTableRowArray.afterMatch, List.all_eq_true]

/-- Membership characterization of `before`. -/
theorem mem_before (criteria : List (String × Value)) (rows : List Row) (r : Row) :
    r ∈ ActiveTableRowArray.before criteria rows ↔
      r ∈ rows ∧ ∀ p ∈ criteria,
        jsStrictEq (r.fields p.1) Value.vNull = false ∧
        jsStrictEq (r.fields p.1) (Value.vStr "") = false ∧
        jsLt (r.fields p.1) p.2 = true := by
  simp [ActiveTableRowArray.before, List.mem_filter,
    ActiveTableRowArray.beforeMatch, List.all_eq_true, Bool.and_eq_true,
    Bool.not_eq_true', and_assoc]

/-- C7: `where(criteria)` keeps exactly the rows for which every
criterion column's value equals the expected value — by value for
primitives, by underlying instant for two `Date` values (two distinct
`Date` instances with the same time compare equal); the result is a new
collection preserving the relative order of the matching rows (a
sublist of the receiver), and empty criteria match every row. -/
theorem c7_where_equality_semantics (criteria : List (String × Value)) (rows : List Row)
    (r : Row) (i j : Nat) (t u : Int) (n : Int) (s : String) (b : Bool) (w : Value) :
    ActiveTableRowArray.whereFilter [] rows = rows ∧
    List.Sublist (ActiveTableRowArray.whereFilter criteria rows) rows ∧
    (r ∈ ActiveTableRowArray.whereFilter criteria rows ↔
      r ∈ rows ∧ ∀ p ∈ criteria, ActiveTableRowArray.whereTest p.2 (r.fields p.1) = true) ∧
    ActiveTableRowArray.whereTest (Value.vDate i t) (Value.vDate j t) = true ∧
    (ActiveTableRowArray.whereTest (Value.vDate i t) (Value.vDate j u) = true ↔ t = u) ∧
    ActiveTableRowArray.whereTest (Value.vNum n) w = jsStrictEq w (Value.vNum n) ∧
    ActiveTableRowArray.whereTest (Value.vStr s) w = jsStrictEq w (Value.vStr s) ∧
    ActiveTableRowArray.whereTest (Value.vBool b) w = jsStrictEq w (Value.vBool b) ∧
    ActiveTableRowArray.whereTest Value.vNull w = jsStrictEq w Value.vNull := by
  refine ⟨?_, List.filter_sublist _, mem_whereFilter criteria rows r,
    by simp [ActiveTableRowArray.whereTest], by simp [ActiveTableRowArray.whereTest], ?_, ?_, ?_, ?_⟩
  · simp [ActiveTableRowArray.whereFilter, ActiveTableRowArray.whereMatch]
  all_goals cases w <;> rfl

/-- C1: `before(criteria)` keeps exactly the rows whose value at each
criterion column is neither `null` nor the empty string and is strictly
less than the expected value, so a row whose value at a criterion
column is `null` or `""` lies in no `before` result, whatever the
threshold; `after(criteria)` has no null/empty special case — membership
is characterized by the `>` comparisons alone, and the very same
null/empty row does pass an `after` whose threshold compares below it
(e.g. `-1`, since `null` and `""` coerce to 0). -/
theorem c1_before_after_null_asymmetry (k : String) (r : Row)
    (hnull : r.fields k = Value.vNull ∨ r.fields k = Value.vStr "") :
    (∀ (criteria : List (String × Value)) (v : Value) (rows : List Row),
      (k, v) ∈ criteria → r ∉ ActiveTableRowArray.before criteria rows) ∧
    (∀ (criteria : List (String × Value)) (rows : List Row) (r' : Row),
      r' ∈ ActiveTableRowArray.before criteria rows ↔
        r' ∈ rows ∧ ∀ p ∈ criteria,
          jsStrictEq (r'.fields p.1) Value.vNull = false ∧
          jsStrictEq (r'.fields p.1) (Value.vStr "") = false ∧
          jsLt (r'.fields p.1) p.2 = true) ∧
    (∀ (criteria : List (String × Value)) (rows : List Row) (r' : Row),
      r' ∈ ActiveTableRowArray.after criteria rows ↔
        r' ∈ rows ∧ ∀ p ∈ criteria, jsGt (r'.fields p.1) p.2 = true) ∧
    r ∈ ActiveTableRowArray.after [(k, Value.vNum (-1))] [r] := by
  refine ⟨?_, fun c rows r' => mem_before c rows r', fun c rows r' => mem_after c rows r', ?_⟩
  · intro criteria v rows hmem hr
    obtain ⟨-, hall⟩ := (mem_before criteria rows r).mp hr
    have h := hall (k, v) hmem
    rcases hnull with hk | hk <;> rw [hk] at h <;> simp [jsStrictEq] at h
  · rw [mem_after]
    refine ⟨List.mem_singleton.mpr rfl, ?_⟩
    intro p hp
    rw [List.mem_singleton.mp hp]
    rcases hnull with hk | hk <;> simp only [jsGt] <;> rw [hk] <;> rfl

/-- C1 witness: a persisted row whose `age` field is `null` never shows
up in a `before` on `age`, yet passes `after` with threshold `-1`. -/
theorem c1_witness :
    nullAgeRow ∉ ActiveTableRowArray.before [("age", Value.vNum 100)] [nullAgeRow] ∧
    nullAgeRow ∈ ActiveTableRowArray.after [("age", Value.vNum (-1))] [nullAgeRow] := by
  have h := c1_before_after_null_asymmetry "age" nullAgeRow (Or.inl rfl)
  exact ⟨h.1 [("age", Value.vNum 100)] (Value.vNum 100) [nullAgeRow] (by simp), h.2.2.2⟩

/-- C2 counterexample: after `delete()` the position handle is `null`,
yet `save()` on that very row issues a backing-store append — so not
every further mutation call is a no-op with respect to persistence. -/
theorem c2_counterexample :
    (Row.delete sampleRow).1.rowNumber = none ∧
    Row.save ["id"] (Row.delete sampleRow).1 = [StoreOp.append [Value.vStr ""]] ∧
    Row.save ["id"] (Row.delete sampleRow).1 ≠ [] := by
  exact ⟨rfl, rfl, by decide⟩

/-- C2 amended: after `delete()` (handle `null`), `update(fields)` and a
further `delete()` issue no backing-store operation, and field
assignment still works in memory; `save()`, however, behaves as on any
transient row and issues an append of the row's current values. -/
theorem c2_deleted_row_mutations (r : Row) (attrs : List String)
    (obj : List (String × Value)) (k : String) (v : Value) :
    (Row.update attrs obj (Row.delete r).1).2 = [] ∧
    (Row.delete (Row.delete r).1).2 = [] ∧
    (Row.update attrs [(k, v)] (Row.delete r).1).1.fields k = v ∧
    Row.save attrs (Row.delete r).1 =
      [StoreOp.append (rowValues attrs (Row.delete r).1.fields)] := by
  refine ⟨rfl, rfl, ?_, rfl⟩
  simp [Row.update, Row.delete, assignField]

/-- C8: `delete()` on a persisted row issues exactly one backing-store
`deleteRow` at the row's current position and unconditionally clears the
handle, so `isPersisted()` is false afterwards; a second `delete()`
issues no backing-store operation and leaves the row unchanged. -/
theorem c8_delete_once_then_idempotent (r : Row) (n : Nat) (h : r.rowNumber = some n) :
    (Row.delete r).2 = [StoreOp.deleteRow n] ∧
    (Row.delete r).1.rowNumber = none ∧
    Row.isPersisted (Row.delete r).1 = false ∧
    (Row.delete (Row.delete r).1).2 = [] ∧
    (Row.delete (Row.delete r).1).1 = (Row.delete r).1 := by
  refine ⟨?_, rfl, rfl, rfl, rfl⟩
  simp [Row.delete, h]

/-- C8 witness: the concrete persisted row at position 2. -/
theorem c8_witness :
    (Row.delete sampleRow).2 = [StoreOp.deleteRow 2] ∧
    Row.isPersisted (Row.delete sampleRow).1 = false := by
  have h := c8_delete_once_then_idempotent sampleRow 2 rfl
  exact ⟨h.1, h.2.2.1⟩

/-- The receiver after `deleteAllVisit`: every visited row with its
handle cleared, in visit order. -/
theorem deleteAllVisit_fst (rs : List Row) :
    (ActiveTableRowArray.deleteAllVisit rs).1 =
      rs.map fun r => { rowNumber := none, fields := r.fields } := by
  induction rs with
  | nil => rfl
  | cons r rs ih => simp [ActiveTableRowArray.deleteAllVisit, ih, Row.delete]

/-- The trace of `deleteAllVisit`: one `deleteRow` per persisted visited
row, at its recorded position, in visit order. -/
theorem deleteAllVisit_snd (rs : List Row) :
    (ActiveTableRowArray.deleteAllVisit rs).2 =
      (rs.filterMap Row.rowNumber).map StoreOp.deleteRow := by
  induction rs with
  | nil => rfl
  | cons r rs ih =>
    cases h : r.rowNumber <;>
      simp [ActiveTableRowArray.deleteAllVisit, Row.delete, h, ih, List.filterMap_cons]

/-- The receiver after `deleteAll`: the original array reversed in
place, each member's handle cleared. -/
theorem deleteAll_fst (rows : List Row) :
    (ActiveTableRowArray.deleteAll rows).1 =
      (rows.map fun r => { rowNumber := none, fields := r.fields }).reverse := by
  simp [ActiveTableRowArray.deleteAll, deleteAllVisit_fst]

/-- The trace of `deleteAll`: the persisted positions in reverse
collection order. -/
theorem deleteAll_snd (rows : List Row) :
    (ActiveTableRowArray.deleteAll rows).2 =
      ((rows.filterMap Row.rowNumber).reverse).map StoreOp.deleteRow := by
  simp [ActiveTableRowArray.deleteAll, deleteAllVisit_snd, List.filterMap_reverse]

/-- C10: `deleteAll()` mutates the receiver collection itself — after it
returns, the receiver holds the same rows (same field bags, each handle
cleared by its own `delete`) in reverse of their pre-call order —
whereas `where`/`after`/`before` only produce new sub-collections of
the receiver (sublists: no reordering and no member mutation). -/
theorem c10_deleteAll_mutates_receiver (rows : List Row) (criteria : List (String × Value)) :
    (ActiveTableRowArray.deleteAll rows).1 =
      (rows.map fun r => { rowNumber := none, fields := r.fields }).reverse ∧
    List.Sublist (ActiveTableRowArray.whereFilter criteria rows) rows ∧
    List.Sublist (ActiveTableRowArray.after criteria rows) rows ∧
    List.Sublist (ActiveTableRowArray.before criteria rows) rows :=
  ⟨deleteAll_fst rows, List.filter_sublist _, List.filter_sublist _, List.filter_sublist _⟩

/-- `materializeRows` produces one row per data row. -/
theorem materializeRows_length (attrs : List String) (pos : Nat) (data : List (List Value)) :
    (materializeRows attrs pos data).length = data.length := by
  induction data generalizing pos with
  | nil => rfl
  | cons cells rest ih => simp [materializeRows, ih]

/-- The `k`-th materialized row is the `k`-th data row wrapped at sheet
position `pos + k`. -/
theorem materializeRows_getElem (attrs : List String) (pos : Nat) (data : List (List Value))
    (k : Nat) :
    (materializeRows attrs pos data)[k]? =
      (data[k]?).map fun cells => materializeRow attrs (pos + k) cells := by
  induction data generalizing pos k with
  | nil => simp [materializeRows]
  | cons cells rest ih =>
    cases k with
    | zero => simp [materializeRows]
    | succ k =>
      simp only [materializeRows, List.getElem?_cons_succ, ih (pos + 1) k]
      have : pos + 1 + k = pos + (k + 1) := by omega
      rw [this]

/-- The recorded position handles of the materialized rows are
`pos, pos + 1, …` in order. -/
theorem materializeRows_positions (attrs : List String) (pos : Nat)
    (data : List (List Value)) :
    (materializeRows attrs pos data).filterMap Row.rowNumber =
      List.range' pos data.length := by
  induction data generalizing pos with
  | nil => rfl
  | cons cells rest ih =>
    simp [materializeRows, List.filterMap_cons, materializeRow, ih (pos + 1)]
    rfl

/-- Deleting 1-based positions `front.length + data.length, …,
front.length + 1` in descending order removes exactly the `data` block
of a position-shifting store: every handle is still valid at the moment
of its own deletion. -/
theorem applyOps_delete_descending (front data : List (List Value)) :
    applyOps (front ++ data)
        ((List.range' (front.length + 1) data.length).reverse.map StoreOp.deleteRow) = front := by
  induction data using List.reverseRecOn with
  | nil => simp [applyOps]
  | append_singleton ds d ih =>
    have hlen : (front ++ ds).length = front.length + ds.length := by simp
    have hcat : List.range' (front.length + 1) (ds.length + 1) =
        List.range' (front.length + 1) ds.length ++ [front.length + 1 + ds.length] := by
      simpa using @List.range'_concat 1 (front.length + 1) ds.length
    simp only [List.length_append, List.length_cons, List.length_nil, hcat,
      List.reverse_append, List.reverse_singleton, List.map_append, List.map_cons,
      List.map_nil, List.singleton_append]
    show applyOps (front ++ (ds ++ [d]))
        (StoreOp.deleteRow (front.length + 1 + ds.length) ::
          (List.range' (front.length + 1) ds.length).reverse.map StoreOp.deleteRow) = front
    have hstep : applyOp (front ++ (ds ++ [d]))
        (StoreOp.deleteRow (front.length + 1 + ds.length)) = front ++ ds := by
      have h1 : front ++ (ds ++ [d]) = (front ++ ds) ++ [d] := by simp
      have h2 : front.length + 1 + ds.length - 1 = (front ++ ds).length := by
        rw [hlen]; omega
      simp only [applyOp, h1, h2]
      rw [List.take_left' rfl]
      have h3 : ((front ++ ds) ++ [d]).drop (front.length + 1 + ds.length) = [] := by
        apply List.drop_eq_nil_of_le
        simp only [List.length_append, List.length_cons, List.length_nil]
        omega
      rw [h3, List.append_nil]
    show applyOps (applyOp (front ++ (ds ++ [d]))
        (StoreOp.deleteRow (front.length + 1 + ds.length)))
        ((List.range' (front.length + 1) ds.length).reverse.map StoreOp.deleteRow) = front
    rw [hstep]
    exact ih

/-- C3: `deleteAll()` issues its backing-store `deleteRow` calls in
reverse collection order — the trace equals the members' recorded
positions reversed — in particular, for a collection of two rows at
positions 2 and 3, deletion of position 3 is issued before deletion of
position 2; and applying the trace of `deleteAll` on a freshly read
collection to the backing grid under position-shifting delete semantics
removes exactly the data rows (each handle still valid at the moment of
its own deletion). -/
theorem c3_deleteAll_reverse_order (rows : List Row) (r s : Row) (sheet : Sheet)
    (hrow : List Value) (hr : r.rowNumber = some 2) (hs : s.rowNumber = some 3) :
    (ActiveTableRowArray.deleteAll rows).2 =
      ((rows.filterMap Row.rowNumber).reverse).map StoreOp.deleteRow ∧
    (ActiveTableRowArray.deleteAll [r, s]).2 = [StoreOp.deleteRow 3, StoreOp.deleteRow 2] ∧
    applyOps (hrow :: sheet.rows)
        ((ActiveTableRowArray.deleteAll (ActiveTable.all sheet)).2) = [hrow] := by
  refine ⟨deleteAll_snd rows, ?_, ?_⟩
  · rw [deleteAll_snd]
    simp [List.filterMap_cons, hr, hs]
  · rw [deleteAll_snd, ActiveTable.all, materializeRows_positions]
    have h := applyOps_delete_descending [hrow] sheet.rows
    simpa using h

/-- C3 witness: two concrete persisted rows at positions 2 and 3. -/
theorem c3_witness :
    (ActiveTableRowArray.deleteAll [sampleRow, rowAtThree]).2 =
      [StoreOp.deleteRow 3, StoreOp.deleteRow 2] :=
  (c3_deleteAll_reverse_order [] sampleRow rowAtThree okSheet [] rfl rfl).2.1

/-- A `Set` never holds more elements than were inserted. -/
theorem foldl_insertUniq_length_le (l : List Value) (acc : List Value) :
    (l.foldl insertUniq acc).length ≤ acc.length + l.length := by
  induction l generalizing acc with
  | nil => simp
  | cons v vs ih =>
    have h1 := ih (insertUniq acc v)
    have h2 : (insertUniq acc v).length ≤ acc.length + 1 := by
      unfold insertUniq
      split
      · exact Nat.le_succ _
      · simp
    calc ((v :: vs).foldl insertUniq acc).length
        = (vs.foldl insertUniq (insertUniq acc v)).length := rfl
      _ ≤ (insertUniq acc v).length + vs.length := h1
      _ ≤ acc.length + 1 + vs.length := by omega
      _ = acc.length + (v :: vs).length := by simp; omega

/-- The number of distinct values never exceeds the number of values. -/
theorem setSize_le (vs : List Value) : setSize vs ≤ vs.length := by
  simpa [setSize] using foldl_insertUniq_length_le vs []

/-- C4: with `checkUnique` enabled (the default), construction fails
with the duplicate-key error naming the sheet exactly when the number of
distinct first-column values across the data rows is smaller than the
number of data rows (the `Set` size differing from the row count can
only mean smaller), and succeeds otherwise; with `checkUnique` disabled
it always succeeds, and `all()` still wraps every data row, duplicates
included. -/
theorem c4_checkUnique_enforcement (sheet : Sheet) :
    (ActiveTable.construct sheet true = .error (dupMsg sheet.name) ↔
      setSize (firstColumn sheet) < sheet.rows.length) ∧
    (ActiveTable.construct sheet true = .ok sheet.header ↔
      setSize (firstColumn sheet) = sheet.rows.length) ∧
    ActiveTable.construct sheet false = .ok sheet.header ∧
    (ActiveTable.all sheet).length = sheet.rows.length := by
  have hle : setSize (firstColumn sheet) ≤ sheet.rows.length := by
    have h := setSize_le (firstColumn sheet)
    simpa [firstColumn] using h
  refine ⟨?_, ?_, ?_, ?_⟩
  · by_cases h : setSize (firstColumn sheet) = sheet.rows.length
    · simp [ActiveTable.construct, h]
    · simp [ActiveTable.construct, h]
      omega
  · by_cases h : setSize (firstColumn sheet) = sheet.rows.length
    · simp [ActiveTable.construct, h]
    · simp [ActiveTable.construct, h]
  · simp [ActiveTable.construct]
  · exact materializeRows_length sheet.header 2 sheet.rows

/-- On the keys actually assigned, `assignAttrsFrom` leaves every other
key untouched. -/
theorem assignAttrsFrom_not_mem (attrs : List String) (i : Nat) (cells : List Value)
    (f : String → Value) (a : String) (ha : a ∉ attrs) :
    assignAttrsFrom attrs i cells f a = f a := by
  induction attrs generalizing i f with
  | nil => rfl
  | cons b as ih =>
    have hne : a ≠ b := fun h => ha (h ▸ List.mem_cons_self b as)
    have hnotin : a ∉ as := fun h => ha (List.mem_cons_of_mem b h)
    rw [assignAttrsFrom, ih (i + 1) _ hnotin]
    simp [assignField, hne]

/-- With pairwise-distinct attribute names, the field assigned for the
`j`-th attribute is the `j`-th cell (offset by the running index). -/
theorem assignAttrsFrom_getElem (attrs : List String) (hnodup : attrs.Nodup) (i : Nat)
    (cells : List Value) (f : String → Value) (j : Nat) (a : String)
    (ha : attrs[j]? = some a) :
    assignAttrsFrom attrs i cells f a = cells.getD (i + j) Value.vUndefined := by
  induction attrs generalizing i f j with
  | nil => simp at ha
  | cons b as ih =>
    obtain ⟨hb, hnd⟩ := List.nodup_cons.mp hnodup
    cases j with
    | zero =>
      have hab : a = b := by simpa using ha.symm
      subst hab
      rw [assignAttrsFrom, assignAttrsFrom_not_mem as (i + 1) cells _ a hb]
      simp [assignField]
    | succ j =>
      have ha' : as[j]? = some a := by simpa using ha
      rw [assignAttrsFrom, ih hnd (i + 1) _ j ha']
      have : i + 1 + j = i + (j + 1) := by omega
      rw [this]

/-- C9: `all()` returns one row per data row in store order; the row at
0-based data index `k` carries position handle `k + 2` (1-based data
index + 1, skipping the header) and, for pairwise-distinct header
names, its field at the `j`-th column name is the `j`-th cell of that
data row. -/
theorem c9_all_rows_positions_fields (sheet : Sheet) (hnodup : sheet.header.Nodup) :
    (ActiveTable.all sheet).length = sheet.rows.length ∧
    ∀ k r, (ActiveTable.all sheet)[k]? = some r →
      r.rowNumber = some (k + 2) ∧
      ∀ j a, sheet.header[j]? = some a →
        r.fields a = (sheet.rows.getD k []).getD j Value.vUndefined := by
  refine ⟨materializeRows_length sheet.header 2 sheet.rows, ?_⟩
  intro k r hr
  rw [ActiveTable.all, materializeRows_getElem] at hr
  obtain ⟨cells, hcells, hrr⟩ := Option.map_eq_some'.mp hr
  have hgetd : sheet.rows.getD k [] = cells := by
    rw [List.getD_eq_getElem?_getD, hcells]
    rfl
  constructor
  · rw [← hrr]
    simp [materializeRow]
    omega
  · intro j a haj
    rw [← hrr, hgetd]
    simp only [materializeRow]
    rw [assignAttrsFrom_getElem sheet.header hnodup 0 cells _ j a haj]
    simp

/-- C9 witness: the two-column sheet with one data row. -/
theorem c9_witness :
    (ActiveTable.all twoColSheet).length = 1 ∧
    (materializeRow ["id", "name"] 2 [Value.vStr "x", Value.vStr "y"]).rowNumber = some 2 ∧
    (materializeRow ["id", "name"] 2 [Value.vStr "x", Value.vStr "y"]).fields "name" =
      Value.vStr "y" := by
  have h := c9_all_rows_positions_fields twoColSheet (by decide)
  have h2 := h.2 0 (materializeRow ["id", "name"] 2 [Value.vStr "x", Value.vStr "y"]) rfl
  exact ⟨h.1, h2.1, h2.2 1 "name" rfl⟩

/-- C5: `find(id)` filters the freshly read rows by strict equality of
the first column's value against `id`; it errs with the not-found
message on zero matches, errs with the ambiguous (multiple-rows)
message on more than one match, and returns the single matching row
otherwise. -/
theorem c5_find_unique_match (sheet : Sheet) (id : String) :
    (∀ a, sheet.header[0]? = some a →
      ∀ r, r ∈ ActiveTable.findMatches sheet id ↔
        r ∈ ActiveTable.all sheet ∧ jsStrictEq (r.fields a) (Value.vStr id) = true) ∧
    (1 < (ActiveTable.findMatches sheet id).length →
      ActiveTable.find sheet id = .error (multiMsg id)) ∧
    ((ActiveTable.findMatches sheet id).length = 0 →
      ActiveTable.find sheet id = .error (nfMsg id)) ∧
    (∀ r, ActiveTable.findMatches sheet id = [r] → ActiveTable.find sheet id = .ok r) := by
  refine ⟨?_, ?_, ?_, ?_⟩
  · intro a ha r
    have hhead : sheet.header.headD "" = a := by
      cases hh : sheet.header with
      | nil => rw [hh] at ha; simp at ha
      | cons b t =>
        rw [hh] at ha
        simp at ha
        simp [ha]
    rw [ActiveTable.findMatches, hhead, List.mem_filter]
  · intro h
    simp [ActiveTable.find, if_pos h]
  · intro h
    have hnil : ActiveTable.findMatches sheet id = [] := List.length_eq_zero.mp h
    simp [ActiveTable.find, hnil]
  · intro r h
    simp [ActiveTable.find, h]

/-- C5 witness: a duplicated key is ambiguous, a missing key is not
found, and a unique key returns its row. -/
theorem c5_witness :
    ActiveTable.find dupSheet "a" = .error (multiMsg "a") ∧
    ActiveTable.find dupSheet "ghost" = .error (nfMsg "ghost") ∧
    ActiveTable.find okSheet "b" = .ok (materializeRow ["id"] 3 [Value.vStr "b"]) := by
  refine ⟨(c5_find_unique_match dupSheet "a").2.1 (by decide),
    (c5_find_unique_match dupSheet "ghost").2.2.1 (by decide),
    (c5_find_unique_match okSheet "b").2.2.2 _ rfl⟩

/-- C6 counterexample: against a one-column table, `create` with the
key `id` present but bound to `null` appends the empty string, not the
present value `fields[id] = null`. -/
theorem c6_counterexample :
    ActiveTable.create ["id"] [("id", Value.vNull)] = [StoreOp.append [Value.vStr ""]] ∧
    objLookup [("id", Value.vNull)] "id" = Value.vNull ∧
    Value.vStr "" ≠ Value.vNull :=
  ⟨rfl, rfl, by decide⟩

/-- Appending an entry whose key differs from `a` does not change the
lookup at `a`. -/
theorem objLookup_append_other (obj : List (String × Value)) (k : String) (v : Value)
    (a : String) (h : a ≠ k) :
    objLookup (obj ++ [(k, v)]) a = objLookup obj a := by
  unfold objLookup
  rw [List.find?_append]
  cases hf : obj.find? (fun p => p.1 == a) with
  | some p => simp [Option.or]
  | none =>
    have hne : (k == a) = false := beq_eq_false_iff_ne.mpr (Ne.symm h)
    have : (List.find? (fun p => p.1 == a) [(k, v)]) = none := by
      simp [List.find?, hne]
    simp [Option.or, this]

/-- C6 amended: `create(fields)` appends exactly one row whose values
are, in column order, `fields[columnName]` when that key is present
with a value that is neither `null` nor `undefined`, and the empty
string otherwise (so a present but nullish value also defaults to
empty); keys that are not known column names never influence the
appended row, and e.g. `create({id:'x', name:'y'})` against columns
`id,name,status` appends `[x, y, '']`. -/
theorem c6_create_column_defaults (attrs : List String) (obj : List (String × Value))
    (k : String) (v : Value) :
    (∃ vs, ActiveTable.create attrs obj = [StoreOp.append vs] ∧
      vs.length = attrs.length ∧
      ∀ (j : Nat) (a : String), attrs[j]? = some a →
        vs[j]? = some (if objLookup obj a = Value.vNull ∨ objLookup obj a = Value.vUndefined
          then Value.vStr "" else objLookup obj a)) ∧
    (k ∉ attrs → ActiveTable.create attrs (obj ++ [(k, v)]) = ActiveTable.create attrs obj) ∧
    ActiveTable.create ["id", "name", "status"]
        [("id", Value.vStr "x"), ("name", Value.vStr "y")] =
      [StoreOp.append [Value.vStr "x", Value.vStr "y", Value.vStr ""]] := by
  refine ⟨⟨attrs.map fun a => orEmptyStr (objLookup obj a), rfl, by simp, ?_⟩, ?_, rfl⟩
  · intro j a ha
    rw [List.getElem?_map, ha]
    cases h : objLookup obj a <;> simp [orEmptyStr, h]
  · intro hk
    unfold ActiveTable.create
    have : ∀ a ∈ attrs, orEmptyStr (objLookup (obj ++ [(k, v)]) a) =
        orEmptyStr (objLookup obj a) := by
      intro a ha
      rw [objLookup_append_other obj k v a (fun h => hk (h ▸ ha))]
    rw [List.map_congr_left this]

/-- C6 witness: unknown keys are dropped and known missing columns
default to the empty string on the spec's three-column example. -/
theorem c6_witness :
    ActiveTable.create ["id"] ([("id", Value.vStr "x")] ++ [("junk", Value.vNum 1)]) =
      ActiveTable.create ["id"] [("id", Value.vStr "x")] ∧
    ActiveTable.create ["id", "name", "status"]
        [("id", Value.vStr "x"), ("name", Value.vStr "y")] =
      [StoreOp.append [Value.vStr "x", Value.vStr "y", Value.vStr ""]] := by
  have h := c6_create_column_defaults ["id"] [("id", Value.vStr "x")] "junk" (Value.vNum 1)
  exact ⟨h.2.1 (by decide), h.2.2⟩

/-- C7 witness: two distinct `Date` instances with the same instant test
equal, and empty criteria keep every row. -/
theorem c7_witness :
    ActiveTableRowArray.whereTest (Value.vDate 0 5) (Value.vDate 1 5) = true ∧
    ActiveTableRowArray.whereFilter [] [sampleRow] = [sampleRow] := by
  have h := c7_where_equality_semantics [] [sampleRow] sampleRow 0 1 5 5 0 "" false Value.vNull
  exact ⟨h.2.2.2.1, h.1⟩
